import Mathlib

/-!
Shallow embedding of `src/advanced-vector/vector.h`: a growable contiguous
container (`Vector`) over raw uninitialized storage (`RawMemory`).

A storage buffer is modelled as a `List (Option T)` whose length is the
capacity: slot `some x` holds a live constructed element `x`, slot `none` is
uninitialized memory.  The std algorithms the source calls
(`uninitialized_copy_n` / `uninitialized_move_n`, `destroy_n`,
`uninitialized_value_construct_n`, `ranges::move_backward`, `ranges::move`)
are modelled as recursive slot-writers in the same traversal order as the
C++ functions.  A fallible element construction (the `Args&&... args` of
`Emplace`) is modelled as an `Option T`: `none` means the constructor threw.
Move-construction and copy-construction transfer the same value in this
model; which one a growth path performs is tracked separately through the
`Traits` flags mirroring the `if constexpr` conditions of the source.
-/

set_option autoImplicit false

namespace AdvancedVector

variable {T : Type}

/-- Slot read: contents of slot `i` of a buffer (out of range reads as
uninitialized). -/
def sl (buf : List (Option T)) (i : Nat) : Option T := buf.getD i none

/-- Models `std::uninitialized_copy_n` / `std::uninitialized_move_n` (and
`std::ranges::copy` into already-live slots): writes `n` slots read from
`src` starting at `sfirst` into `dst` starting at `dfirst`, front to back.
In this value model a move transfers the same value as a copy. -/
def transferN (src : List (Option T)) : Nat → List (Option T) → Nat → Nat → List (Option T)
  | _, dst, _, 0 => dst
  | sfirst, dst, dfirst, n+1 =>
      transferN src (sfirst+1) (dst.set dfirst (sl src sfirst)) (dfirst+1) n

/-- Writes the fixed slot value `x` into slots `[first, first+n)`, front to
back. -/
def fillN (x : Option T) : List (Option T) → Nat → Nat → List (Option T)
  | buf, _, 0 => buf
  | buf, first, n+1 => fillN x (buf.set first x) (first+1) n

/-- Models `std::destroy_n`: slots `[first, first+n)` become uninitialized. -/
def destroyN (buf : List (Option T)) (first n : Nat) : List (Option T) :=
  fillN none buf first n

/-- Models `std::uninitialized_value_construct_n`: slots `[first, first+n)`
get default-constructed elements. -/
def valueConstructN [Inhabited T] (buf : List (Option T)) (first n : Nat) : List (Option T) :=
  fillN (some default) buf first n

/-- Models `std::ranges::move_backward` of the `n` slots `[first, first+n)`
one slot to the right (destinations `[first+1, first+n+1)`), processed back
to front as the C++ algorithm does. -/
def moveBackwardN : List (Option T) → Nat → Nat → List (Option T)
  | buf, _, 0 => buf
  | buf, first, n+1 => moveBackwardN (buf.set (first+n+1) (sl buf (first+n))) first n

/-- Models `std::ranges::move` of the `n` slots `[dst+1, dst+1+n)` one slot
to the left (destinations `[dst, dst+n)`), processed front to back as the
C++ algorithm does. -/
def moveN : List (Option T) → Nat → Nat → List (Option T)
  | buf, _, 0 => buf
  | buf, dst, n+1 => moveN (buf.set dst (sl buf (dst+1))) (dst+1) n

/-- `RawMemory<T>`: an exclusively owned block of `capacity` slots of
uninitialized memory.  The buffer list's length is the capacity. -/
structure RawMemory (T : Type) where
  buffer_ : List (Option T)
deriving DecidableEq

/-- `RawMemory::Capacity()`. -/
def RawMemory.Capacity (m : RawMemory T) : Nat := m.buffer_.length

/-- A default-constructed / moved-from `RawMemory`: null buffer, capacity 0. -/
def RawMemory.null : RawMemory T := ⟨[]⟩

/-- `Vector<T>`: a `RawMemory` plus the count of live elements. -/
structure Vector (T : Type) where
  data_ : RawMemory T
  size_ : Nat
deriving DecidableEq

/-- `Vector::Size()`. -/
def Vector.Size (v : Vector T) : Nat := v.size_

/-- `Vector::Capacity()`. -/
def Vector.Capacity (v : Vector T) : Nat := v.data_.Capacity

/-- Contents of slot `i` of the vector's storage (what `operator[]` /
iterators dereference at index `i`, as a slot value). -/
def Vector.read (v : Vector T) (i : Nat) : Option T := sl v.data_.buffer_ i

/-- `Vector()`: default construction, no storage. -/
def Vector.empty : Vector T := ⟨RawMemory.null, 0⟩

/-- `Vector(size_t size)`: allocates `size` slots and value-constructs
`size` elements. -/
def Vector.mkSized [Inhabited T] (size : Nat) : Vector T :=
  ⟨⟨valueConstructN (List.replicate size none) 0 size⟩, size⟩

/-- `Vector(const Vector&)`: allocates `other.size_` slots and copies the
`other.size_` live elements. -/
def Vector.copyCtor (other : Vector T) : Vector T :=
  ⟨⟨transferN other.data_.buffer_ 0 (List.replicate other.size_ none) 0 other.size_⟩,
   other.size_⟩

/-- `Vector::operator=(const Vector&)`: reallocate through a copy-and-swap
when capacity is too small, otherwise reuse the existing storage (copy the
common prefix, then destroy the surplus tail or copy-construct the missing
tail). -/
def Vector.copyAssign (v other : Vector T) : Vector T :=
  if v.Capacity < other.size_ then
    Vector.copyCtor other
  else
    let b1 := transferN other.data_.buffer_ 0 v.data_.buffer_ 0 (min v.size_ other.size_)
    let b2 :=
      if other.size_ < v.size_ then destroyN b1 other.size_ (v.size_ - other.size_)
      else transferN other.data_.buffer_ v.size_ b1 v.size_ (other.size_ - v.size_)
    ⟨⟨b2⟩, other.size_⟩

/-- `Vector(Vector&&)`: steals the storage and size; source left empty.
Returns (constructed vector, source afterwards). -/
def Vector.moveCtor (other : Vector T) : Vector T × Vector T :=
  (⟨other.data_, other.size_⟩, ⟨RawMemory.null, 0⟩)

/-- `Vector::operator=(Vector&&)`: the source's `size_` is set to `0`, then
`data_` is move-assigned (the destination adopts the source's buffer and its
old buffer is released).  Note the destination's `size_` is never assigned,
so it keeps its pre-assignment value.  Returns (destination afterwards,
source afterwards). -/
def Vector.moveAssign (v other : Vector T) : Vector T × Vector T :=
  (⟨other.data_, v.size_⟩, ⟨RawMemory.null, 0⟩)

/-- `Vector::Swap`: swaps `data_` and `size_`.  Returns both vectors
afterwards. -/
def Vector.Swap (v other : Vector T) : Vector T × Vector T :=
  (⟨other.data_, other.size_⟩, ⟨v.data_, v.size_⟩)

/-- `Vector::PopBack`: destroys the last live element and decrements
`size_`. -/
def Vector.PopBack (v : Vector T) : Vector T :=
  ⟨⟨v.data_.buffer_.set (v.size_ - 1) none⟩, v.size_ - 1⟩

/-- `Vector::Reserve`: no-op when `capacity ≤ data_.Capacity()`, otherwise
allocates exactly `capacity` slots, transfers the `size_` live elements,
destroys the old ones and swaps storage. -/
def Vector.Reserve (v : Vector T) (capacity : Nat) : Vector T :=
  if capacity ≤ v.data_.Capacity then v
  else
    ⟨⟨transferN v.data_.buffer_ 0 (List.replicate capacity none) 0 v.size_⟩, v.size_⟩

/-- `Vector::Resize`: within capacity it destroys the excess tail or value-
constructs the missing tail in place; beyond capacity it allocates exactly
`new_size` slots, transfers the live elements, value-constructs the new
tail, destroys the old elements and swaps storage. -/
def Vector.Resize [Inhabited T] (v : Vector T) (new_size : Nat) : Vector T :=
  if new_size ≤ v.data_.Capacity then
    if new_size < v.size_ then
      ⟨⟨destroyN v.data_.buffer_ new_size (v.size_ - new_size)⟩, new_size⟩
    else
      ⟨⟨valueConstructN v.data_.buffer_ v.size_ (new_size - v.size_)⟩, new_size⟩
  else
    let b1 := transferN v.data_.buffer_ 0 (List.replicate new_size none) 0 v.size_
    ⟨⟨valueConstructN b1 v.size_ (new_size - v.size_)⟩, new_size⟩

/-- `Vector::ReallocateAndEmbed` (growth path of `Emplace`): allocates
`size_ == 0 ? 1 : size_ * 2` slots, constructs the new element at index
`distance` in the new buffer (`mk = none` models that construction throwing,
in which case only the new, not yet linked, buffer has been touched and it
is released), then transfers the old prefix `[0, distance)` and suffix
`[distance, size_)` around it, destroys the old elements and swaps.  Returns
the resulting `data_`. -/
def Vector.ReallocateAndEmbed (v : Vector T) (distance : Nat) (mk : Option T) :
    Option (RawMemory T) :=
  let alloc : List (Option T) := List.replicate (if v.size_ = 0 then 1 else v.size_ * 2) none
  match mk with
  | none => none
  | some x =>
    let b1 := alloc.set distance (some x)
    let b2 := transferN v.data_.buffer_ 0 b1 0 distance
    some ⟨transferN v.data_.buffer_ distance b2 (distance+1) (v.size_ - distance)⟩

/-- `Vector::Embed` (in-capacity path of `Emplace`): at the end position it
constructs the element directly in the next free slot; otherwise it
constructs a temporary from the arguments (`mk = none` models that
construction throwing, before anything is modified), move-constructs the
last element into the next free slot, shifts `[distance, size_-1)` one slot
right backwards, and move-assigns the temporary into slot `distance`.
Returns the resulting `data_`. -/
def Vector.Embed (v : Vector T) (distance : Nat) (mk : Option T) :
    Option (RawMemory T) :=
  if distance = v.size_ then
    mk.map (fun x => ⟨v.data_.buffer_.set v.size_ (some x)⟩)
  else
    match mk with
    | none => none
    | some arg =>
      let b1 := v.data_.buffer_.set v.size_ (sl v.data_.buffer_ (v.size_ - 1))
      let b2 := moveBackwardN b1 distance (v.size_ - 1 - distance)
      some ⟨b2.set distance (some arg)⟩

/-- `Vector::Emplace(pos, args...)` with `distance = pos - begin()`: growth
path when `size_ == Capacity()`, in-place path otherwise; `size_` is
incremented only after successful construction and the returned iterator is
`data_ + distance`.  Returns (vector afterwards, `some` returned iterator
index, or `none` when the element construction threw). -/
def Vector.Emplace (v : Vector T) (distance : Nat) (mk : Option T) :
    Vector T × Option Nat :=
  if v.size_ = v.data_.Capacity then
    match v.ReallocateAndEmbed distance mk with
    | none => (v, none)
    | some nd => (⟨nd, v.size_ + 1⟩, some distance)
  else
    match v.Embed distance mk with
    | none => (v, none)
    | some nd => (⟨nd, v.size_ + 1⟩, some distance)

/-- `Vector::EmplaceBack`: `Emplace` at `cend()`, i.e. distance `size_`. -/
def Vector.EmplaceBack (v : Vector T) (mk : Option T) : Vector T × Option Nat :=
  v.Emplace v.size_ mk

/-- `Vector::PushBack`: `EmplaceBack` from a (non-throwing, already
constructed) value. -/
def Vector.PushBack (v : Vector T) (x : T) : Vector T :=
  (v.EmplaceBack (some x)).1

/-- `Vector::Insert`: `Emplace` of an already constructed value. -/
def Vector.Insert (v : Vector T) (distance : Nat) (x : T) : Vector T × Option Nat :=
  v.Emplace distance (some x)

/-- `Vector::Erase(pos)` with `distance = pos - begin()`: moves
`[distance+1, size_)` one slot left, destroys the vacated last live slot,
decrements `size_`, and returns `data_ + distance`.  Returns (vector
afterwards, returned iterator index). -/
def Vector.Erase (v : Vector T) (distance : Nat) : Vector T × Nat :=
  let b1 := moveN v.data_.buffer_ distance (v.size_ - 1 - distance)
  (⟨⟨b1.set (v.size_ - 1) none⟩, v.size_ - 1⟩, distance)

/-- Compile-time traits of the element type `T` consulted by the source's
`if constexpr` growth-path selection. -/
structure Traits where
  is_nothrow_move_constructible : Bool
  is_copy_constructible : Bool

/-- Whether a growth path transfers an old element into the new buffer by
move construction or by copy construction. -/
inductive TransferKind where
  | move : TransferKind
  | copy : TransferKind
deriving DecidableEq

/-- Transfers performed by `Vector::Reserve` (lines 205-220): none when it
is a no-op; otherwise `uninitialized_move_n` of the `size_` elements when
`is_nothrow_move_constructible_v<T> || !is_copy_constructible_v<T>`, else
`uninitialized_copy_n` of them. -/
def Vector.ReserveTransfers (tr : Traits) (v : Vector T) (capacity : Nat) :
    List TransferKind :=
  if capacity ≤ v.data_.Capacity then []
  else if tr.is_nothrow_move_constructible || !tr.is_copy_constructible then
    List.replicate v.size_ TransferKind.move
  else
    List.replicate v.size_ TransferKind.copy

/-- Transfers performed by `Vector::Resize` (lines 222-247): the pre-existing
elements are transferred only on the reallocating branch, by the same
`if constexpr` selection as `Reserve`. -/
def Vector.ResizeTransfers (tr : Traits) (v : Vector T) (new_size : Nat) :
    List TransferKind :=
  if new_size ≤ v.data_.Capacity then []
  else if tr.is_nothrow_move_constructible || !tr.is_copy_constructible then
    List.replicate v.size_ TransferKind.move
  else
    List.replicate v.size_ TransferKind.copy

/-- Transfers performed by `Vector::ReallocateAndEmbed` (lines 292-308):
the prefix `[0, distance)` and the suffix `[distance, size_)` are each
transferred by the same `if constexpr` selection. -/
def Vector.ReallocateTransfers (tr : Traits) (v : Vector T) (distance : Nat) :
    List TransferKind :=
  if tr.is_nothrow_move_constructible || !tr.is_copy_constructible then
    List.replicate distance TransferKind.move ++
      List.replicate (v.size_ - distance) TransferKind.move
  else
    List.replicate distance TransferKind.copy ++
      List.replicate (v.size_ - distance) TransferKind.copy

/-- The container invariant of the spec: slots `[0, size)` hold live
constructed elements, slots `[size, capacity)` are uninitialized, and the
size never exceeds the capacity. -/
def Vector.WF (v : Vector T) : Prop :=
  v.size_ ≤ v.Capacity ∧
  (∀ i, i < v.size_ → (v.read i).isSome = true) ∧
  (∀ i, i < v.Capacity → v.size_ ≤ i → v.read i = none)

instance decidableWF [DecidableEq T] (v : Vector T) : Decidable v.WF :=
  inferInstanceAs (Decidable (_ ∧ (∀ i, i < v.size_ → _) ∧ (∀ i, i < v.Capacity → _)))

theorem sl_set (buf : List (Option T)) (i j : Nat) (x : Option T) :
    sl (buf.set i x) j = if i = j ∧ i < buf.length then x else sl buf j := by
  simp only [sl, List.getD_eq_getElem?_getD, List.getElem?_set]
  by_cases h : i = j
  · subst h
    by_cases hl : i < buf.length
    · simp [hl]
    · simp [hl, List.getElem?_eq_none (Nat.le_of_not_lt hl)]
  · simp [h]

theorem sl_replicate (n j : Nat) :
    sl (List.replicate n (none : Option T)) j = none := by
  simp only [sl, List.getD_eq_getElem?_getD, List.getElem?_replicate]
  split <;> rfl

theorem length_transferN (src : List (Option T)) :
    ∀ (n sfirst dfirst : Nat) (dst : List (Option T)),
      (transferN src sfirst dst dfirst n).length = dst.length := by
  intro n
  induction n with
  | zero => intro _ _ _; rfl
  | succ n ih =>
    intro sfirst dfirst dst
    rw [transferN, ih, List.length_set]

theorem sl_transferN (src : List (Option T)) :
    ∀ (n sfirst dfirst : Nat) (dst : List (Option T)), dfirst + n ≤ dst.length →
      ∀ j, sl (transferN src sfirst dst dfirst n) j =
        if dfirst ≤ j ∧ j < dfirst + n then sl src (sfirst + (j - dfirst)) else sl dst j := by
  intro n
  induction n with
  | zero =>
    intro sfirst dfirst dst _ j
    simp only [transferN]
    rw [if_neg (by omega)]
  | succ n ih =>
    intro sfirst dfirst dst hlen j
    rw [transferN]
    rw [ih (sfirst+1) (dfirst+1) (dst.set dfirst (sl src sfirst))
      (by rw [List.length_set]; omega) j]
    rcases Nat.lt_trichotomy j dfirst with hj | hj | hj
    · rw [if_neg (by omega), if_neg (by omega), sl_set, if_neg (by omega)]
    · subst hj
      rw [if_neg (by omega), if_pos (by omega), sl_set, if_pos ⟨rfl, by omega⟩]
      simp
    · by_cases hjn : j < dfirst + (n + 1)
      · rw [if_pos (by omega), if_pos (by omega)]
        congr 1
        omega
      · rw [if_neg (by omega), if_neg (by omega), sl_set, if_neg (by omega)]

theorem length_fillN (x : Option T) :
    ∀ (n first : Nat) (buf : List (Option T)), (fillN x buf first n).length = buf.length := by
  intro n
  induction n with
  | zero => intro _ _; rfl
  | succ n ih =>
    intro first buf
    rw [fillN, ih, List.length_set]

theorem sl_fillN (x : Option T) :
    ∀ (n first : Nat) (buf : List (Option T)), first + n ≤ buf.length →
      ∀ j, sl (fillN x buf first n) j =
        if first ≤ j ∧ j < first + n then x else sl buf j := by
  intro n
  induction n with
  | zero =>
    intro first buf _ j
    simp only [fillN]
    rw [if_neg (by omega)]
  | succ n ih =>
    intro first buf hlen j
    rw [fillN]
    rw [ih (first+1) (buf.set first x) (by rw [List.length_set]; omega) j]
    rcases Nat.lt_trichotomy j first with hj | hj | hj
    · rw [if_neg (by omega), if_neg (by omega), sl_set, if_neg (by omega)]
    · subst hj
      rw [if_neg (by omega), if_pos (by omega), sl_set, if_pos ⟨rfl, by omega⟩]
    · by_cases hjn : j < first + (n + 1)
      · rw [if_pos (by omega), if_pos (by omega)]
      · rw [if_neg (by omega), if_neg (by omega), sl_set, if_neg (by omega)]

theorem length_moveBackwardN :
    ∀ (n first : Nat) (buf : List (Option T)),
      (moveBackwardN buf first n).length = buf.length := by
  intro n
  induction n with
  | zero => intro _ _; rfl
  | succ n ih =>
    intro first buf
    rw [moveBackwardN, ih, List.length_set]

theorem sl_moveBackwardN :
    ∀ (n first : Nat) (buf : List (Option T)), first + n + 1 ≤ buf.length →
      ∀ j, sl (moveBackwardN buf first n) j =
        if first + 1 ≤ j ∧ j < first + n + 1 then sl buf (j - 1) else sl buf j := by
  intro n
  induction n with
  | zero =>
    intro first buf _ j
    simp only [moveBackwardN]
    rw [if_neg (by omega)]
  | succ n ih =>
    intro first buf hlen j
    rw [moveBackwardN]
    rw [ih first (buf.set (first+n+1) (sl buf (first+n)))
      (by rw [List.length_set]; omega) j]
    by_cases hj : first + 1 ≤ j ∧ j < first + n + 1
    · rw [if_pos hj, if_pos (by omega), sl_set, if_neg (by omega)]
    · by_cases hje : j = first + n + 1
      · subst hje
        rw [if_neg hj, if_pos (by omega), sl_set, if_pos ⟨rfl, by omega⟩,
          Nat.add_sub_cancel]
      · rw [if_neg hj, if_neg (by omega), sl_set, if_neg (by omega)]

theorem length_moveN :
    ∀ (n dst : Nat) (buf : List (Option T)), (moveN buf dst n).length = buf.length := by
  intro n
  induction n with
  | zero => intro _ _; rfl
  | succ n ih =>
    intro dst buf
    rw [moveN, ih, List.length_set]

theorem sl_moveN :
    ∀ (n dst : Nat) (buf : List (Option T)), dst + n ≤ buf.length →
      ∀ j, sl (moveN buf dst n) j =
        if dst ≤ j ∧ j < dst + n then sl buf (j + 1) else sl buf j := by
  intro n
  induction n with
  | zero =>
    intro dst buf _ j
    simp only [moveN]
    rw [if_neg (by omega)]
  | succ n ih =>
    intro dst buf hlen j
    rw [moveN]
    rw [ih (dst+1) (buf.set dst (sl buf (dst+1)))
      (by rw [List.length_set]; omega) j]
    by_cases hj : dst + 1 ≤ j ∧ j < dst + 1 + n
    · rw [if_pos hj, if_pos (by omega), sl_set, if_neg (by omega)]
    · by_cases hje : j = dst
      · subst hje
        rw [if_neg hj, if_pos (by omega), sl_set, if_pos ⟨rfl, by omega⟩]
      · rw [if_neg hj, if_neg (by omega), sl_set, if_neg (by omega)]

theorem ReallocateAndEmbed_some (v : Vector T) (d : Nat) (x : T) :
    v.ReallocateAndEmbed d (some x) =
      some ⟨transferN v.data_.buffer_ d
        (transferN v.data_.buffer_ 0
          ((List.replicate (if v.size_ = 0 then 1 else v.size_ * 2) (none : Option T)).set d
            (some x)) 0 d)
        (d+1) (v.size_ - d)⟩ := rfl

theorem Embed_some_end (v : Vector T) (x : T) :
    v.Embed v.size_ (some x) = some ⟨v.data_.buffer_.set v.size_ (some x)⟩ := by
  unfold Vector.Embed
  rw [if_pos rfl]
  rfl

theorem Embed_some_mid (v : Vector T) (d : Nat) (x : T) (hne : ¬ d = v.size_) :
    v.Embed d (some x) =
      some ⟨(moveBackwardN (v.data_.buffer_.set v.size_ (sl v.data_.buffer_ (v.size_ - 1)))
        d (v.size_ - 1 - d)).set d (some x)⟩ := by
  unfold Vector.Embed
  rw [if_neg hne]

theorem Emplace_of_realloc_eq (v : Vector T) (d : Nat) (mk : Option T) (nd : RawMemory T)
    (hfull : v.size_ = v.data_.Capacity) (he : v.ReallocateAndEmbed d mk = some nd) :
    v.Emplace d mk = (⟨nd, v.size_ + 1⟩, some d) := by
  unfold Vector.Emplace
  rw [if_pos hfull, he]

theorem Emplace_of_embed_eq (v : Vector T) (d : Nat) (mk : Option T) (nd : RawMemory T)
    (hfull : ¬ v.size_ = v.data_.Capacity) (he : v.Embed d mk = some nd) :
    v.Emplace d mk = (⟨nd, v.size_ + 1⟩, some d) := by
  unfold Vector.Emplace
  rw [if_neg hfull, he]

theorem ReallocateAndEmbed_spec (v : Vector T) (d : Nat) (x : T) (hd : d ≤ v.size_) :
    ∃ nd, v.ReallocateAndEmbed d (some x) = some nd ∧
      nd.Capacity = (if v.size_ = 0 then 1 else v.size_ * 2) ∧
      (∀ j, j < d → sl nd.buffer_ j = v.read j) ∧
      sl nd.buffer_ d = some x ∧
      (∀ j, d < j → j ≤ v.size_ → sl nd.buffer_ j = v.read (j - 1)) := by
  have hcap1 : v.size_ + 1 ≤ (if v.size_ = 0 then 1 else v.size_ * 2) := by
    split <;> omega
  refine ⟨_, ReallocateAndEmbed_some v d x, ?_, ?_, ?_, ?_⟩
  · show (transferN _ _ _ _ _).length = _
    rw [length_transferN, length_transferN, List.length_set, List.length_replicate]
  · intro j hj
    show sl (transferN _ _ _ _ _) j = _
    rw [sl_transferN]
    · rw [if_neg (by omega), sl_transferN]
      · rw [if_pos (by omega)]
        show sl v.data_.buffer_ (0 + (j - 0)) = v.read j
        unfold Vector.read
        congr 1
        omega
      · rw [List.length_set, List.length_replicate]
        omega
    · rw [length_transferN, List.length_set, List.length_replicate]
      omega
  · show sl (transferN _ _ _ _ _) d = _
    rw [sl_transferN]
    · rw [if_neg (by omega), sl_transferN]
      · rw [if_neg (by omega), sl_set, if_pos ⟨rfl, by rw [List.length_replicate]; omega⟩]
      · rw [List.length_set, List.length_replicate]
        omega
    · rw [length_transferN, List.length_set, List.length_replicate]
      omega
  · intro j hj1 hj2
    show sl (transferN _ _ _ _ _) j = _
    rw [sl_transferN]
    · rw [if_pos (by omega)]
      show sl v.data_.buffer_ (d + (j - (d + 1))) = v.read (j - 1)
      unfold Vector.read
      congr 1
      omega
    · rw [length_transferN, List.length_set, List.length_replicate]
      omega

theorem Embed_spec_end (v : Vector T) (x : T) (hfull : v.size_ < v.Capacity) :
    ∃ nd, v.Embed v.size_ (some x) = some nd ∧
      nd.Capacity = v.Capacity ∧
      (∀ j, j < v.size_ → sl nd.buffer_ j = v.read j) ∧
      sl nd.buffer_ v.size_ = some x := by
  refine ⟨_, Embed_some_end v x, ?_, ?_, ?_⟩
  · show (List.set _ _ _).length = _
    rw [List.length_set]
    rfl
  · intro j hj
    show sl (List.set _ _ _) j = _
    rw [sl_set, if_neg (by omega)]
    rfl
  · show sl (List.set _ _ _) v.size_ = _
    rw [sl_set, if_pos ⟨rfl, hfull⟩]

theorem Embed_spec_mid (v : Vector T) (d : Nat) (x : T)
    (hd : d < v.size_) (hfull : v.size_ < v.Capacity) :
    ∃ nd, v.Embed d (some x) = some nd ∧
      nd.Capacity = v.Capacity ∧
      (∀ j, j < d → sl nd.buffer_ j = v.read j) ∧
      sl nd.buffer_ d = some x ∧
      (∀ j, d < j → j ≤ v.size_ → sl nd.buffer_ j = v.read (j - 1)) := by
  have hlen : v.data_.buffer_.length = v.Capacity := rfl
  refine ⟨_, Embed_some_mid v d x (by omega), ?_, ?_, ?_, ?_⟩
  · show (List.set _ _ _).length = _
    rw [List.length_set, length_moveBackwardN, List.length_set]
    exact hlen
  · intro j hj
    show sl (List.set _ _ _) j = _
    rw [sl_set, if_neg (by omega), sl_moveBackwardN]
    · rw [if_neg (by omega), sl_set, if_neg (by omega)]
      rfl
    · rw [List.length_set]
      omega
  · show sl (List.set _ _ _) d = _
    rw [sl_set,
      if_pos ⟨rfl, by rw [length_moveBackwardN, List.length_set]; omega⟩]
  · intro j hj1 hj2
    show sl (List.set _ _ _) j = _
    rw [sl_set, if_neg (by omega), sl_moveBackwardN]
    · by_cases hje : j = v.size_
      · subst hje
        rw [if_neg (by omega), sl_set, if_pos ⟨rfl, by omega⟩]
        rfl
      · rw [if_pos (by omega), sl_set, if_neg (by omega)]
        rfl
    · rw [List.length_set]
      omega

theorem Emplace_some_spec (v : Vector T) (d : Nat) (x : T)
    (hd : d ≤ v.size_) (hv : v.size_ ≤ v.Capacity) :
    (v.Emplace d (some x)).2 = some d ∧
    (v.Emplace d (some x)).1.size_ = v.size_ + 1 ∧
    (v.Emplace d (some x)).1.Capacity =
      (if v.size_ = v.Capacity then (if v.size_ = 0 then 1 else v.size_ * 2)
       else v.Capacity) ∧
    (∀ j, j < d → (v.Emplace d (some x)).1.read j = v.read j) ∧
    (v.Emplace d (some x)).1.read d = some x ∧
    (∀ j, d < j → j ≤ v.size_ → (v.Emplace d (some x)).1.read j = v.read (j - 1)) := by
  by_cases hfull : v.size_ = v.Capacity
  · obtain ⟨nd, he, hcap, hpre, hat, hsuf⟩ := ReallocateAndEmbed_spec v d x hd
    rw [Emplace_of_realloc_eq v d (some x) nd hfull he]
    exact ⟨rfl, rfl, by rw [if_pos hfull]; exact hcap, hpre, hat, hsuf⟩
  · have hlt : v.size_ < v.Capacity := by
      have hne : v.size_ ≠ v.Capacity := hfull
      omega
    by_cases hde : d = v.size_
    · subst hde
      obtain ⟨nd, he, hcap, hpre, hat⟩ := Embed_spec_end v x hlt
      rw [Emplace_of_embed_eq v v.size_ (some x) nd hfull he]
      refine ⟨rfl, rfl, by rw [if_neg hfull]; exact hcap, hpre, hat, ?_⟩
      intro j hj1 hj2
      omega
    · obtain ⟨nd, he, hcap, hpre, hat, hsuf⟩ := Embed_spec_mid v d x (by omega) hlt
      rw [Emplace_of_embed_eq v d (some x) nd hfull he]
      exact ⟨rfl, rfl, by rw [if_neg hfull]; exact hcap, hpre, hat, hsuf⟩

theorem PushBack_spec_not_full (v : Vector T) (x : T) (h : v.size_ < v.Capacity) :
    (v.PushBack x).Capacity = v.Capacity ∧ (v.PushBack x).size_ = v.size_ + 1 := by
  have hs := Emplace_some_spec v v.size_ x (Nat.le_refl _) (Nat.le_of_lt h)
  unfold Vector.PushBack Vector.EmplaceBack
  exact ⟨by rw [hs.2.2.1, if_neg (Nat.ne_of_lt h)], hs.2.1⟩

theorem foldl_PushBack_spec :
    ∀ (xs : List T) (w : Vector T), w.size_ + xs.length ≤ w.Capacity →
      (xs.foldl Vector.PushBack w).Capacity = w.Capacity ∧
      (xs.foldl Vector.PushBack w).size_ = w.size_ + xs.length := by
  intro xs
  induction xs with
  | nil =>
    intro w _
    exact ⟨rfl, rfl⟩
  | cons x xs ih =>
    intro w h
    have hlt : w.size_ < w.Capacity := by
      rw [List.length_cons] at h
      omega
    obtain ⟨hc, hs⟩ := PushBack_spec_not_full w x hlt
    rw [List.foldl_cons]
    obtain ⟨ihc, ihs⟩ := ih (w.PushBack x) (by rw [hc, hs, List.length_cons] at *; omega)
    rw [ihc, ihs, hc, hs, List.length_cons]
    exact ⟨rfl, by omega⟩

theorem copyCtor_spec (w : Vector T) :
    (Vector.copyCtor w).size_ = w.size_ ∧
    (Vector.copyCtor w).Capacity = w.size_ ∧
    (∀ i, i < w.size_ → (Vector.copyCtor w).read i = w.read i) := by
  refine ⟨rfl, ?_, ?_⟩
  · show (transferN _ _ _ _ _).length = _
    rw [length_transferN, List.length_replicate]
  · intro i hi
    show sl (transferN _ _ _ _ _) i = _
    rw [sl_transferN]
    · rw [if_pos (by omega)]
      unfold Vector.read
      congr 1
      omega
    · rw [List.length_replicate]
      omega

def v1dest : Vector Nat := (Vector.empty.PushBack 10).PushBack 20

def w1src : Vector Nat := Vector.empty.PushBack 7

/-- Claim C1 fails on the code: `Vector::operator=(Vector&&)` zeroes the
source's size and adopts its buffer, but never assigns the destination's
`size_`.  Move-assigning the one-element `w1src` into the two-element
`v1dest` leaves the destination's size at its old value 2 instead of the
source's former size 1 (the storage and the source's size are transferred
as the claim says). -/
theorem claim_C1_move_assign_keeps_destination_size :
    w1src.size_ = 1 ∧ w1src.read 0 = some 7 ∧
    (Vector.moveAssign v1dest w1src).1.data_ = w1src.data_ ∧
    (Vector.moveAssign v1dest w1src).2.size_ = 0 ∧
    (Vector.moveAssign v1dest w1src).1.size_ = 2 ∧
    ¬ (Vector.moveAssign v1dest w1src).1.size_ = w1src.size_ := by
  decide

def v2full : Vector Nat := (Vector.empty.PushBack 10).PushBack 20

/-- Claim C2 fails on the code: both `v2full` (two `PushBack`s on an empty
vector) and the empty vector satisfy the invariant, yet after
move-assigning the empty vector into `v2full` the destination has size 2
over an adopted capacity of 0, so size exceeds capacity and the invariant
`Vector.WF` is violated. -/
theorem claim_C2_invariant_broken_by_move_assign :
    v2full.WF ∧ Vector.WF (T := Nat) Vector.empty ∧
    ¬ (Vector.moveAssign v2full Vector.empty).1.WF ∧
    (Vector.moveAssign v2full Vector.empty).1.size_ = 2 ∧
    (Vector.moveAssign v2full Vector.empty).1.Capacity = 0 := by
  decide

/-- Claim C3: when the element constructor invoked by `Emplace` throws
(`mk = none`), on both the growth path (`size_ == Capacity()`) and the
in-capacity path, the exception propagates (`none` is returned) and the
vector — size, capacity and every slot — is exactly as before the call. -/
theorem Embed_none (v : Vector T) (distance : Nat) : v.Embed distance none = none := by
  unfold Vector.Embed
  split <;> rfl

/-- Claim C3: when the element constructor invoked by `Emplace` throws
(`mk = none`), on both the growth path (`size_ == Capacity()`) and the
in-capacity path, the exception propagates (`none` is returned) and the
vector — size, capacity and every slot — is exactly as before the call. -/
theorem claim_C3_emplace_exception_strong_guarantee (v : Vector T) (distance : Nat) :
    v.Emplace distance none = (v, none) := by
  unfold Vector.Emplace
  split
  · rfl
  · rw [Embed_none]

def v4one : Vector Nat := Vector.empty.PushBack 5

def pushSeq : Nat → Vector Nat
  | 0 => Vector.empty
  | n+1 => (pushSeq n).PushBack (n+1)

/-- Claim C4: when size equals capacity, `Emplace` reallocates to capacity
exactly `max 1 (size * 2)`; pushing elements onto an initially empty vector
yields capacities 1, 2, 4 at the first three capacity-exhaustion points. -/
theorem claim_C4_growth_capacity (v : Vector T) (distance : Nat) (x : T)
    (hd : distance ≤ v.size_) (hfull : v.size_ = v.Capacity) :
    (v.Emplace distance (some x)).1.Capacity = max 1 (v.size_ * 2) ∧
    ((pushSeq 1).Capacity = 1 ∧ (pushSeq 2).Capacity = 2 ∧ (pushSeq 3).Capacity = 4) := by
  refine ⟨?_, by decide, by decide, by decide⟩
  have hs := (Emplace_some_spec v distance x hd (Nat.le_of_eq hfull)).2.2.1
  rw [hs, if_pos hfull]
  split
  · next h0 =>
    rw [h0]
    decide
  · next h0 =>
    omega

theorem claim_C4_growth_capacity_witness :
    (0 ≤ v4one.size_ ∧ v4one.size_ = v4one.Capacity) ∧
    ((v4one.Emplace 0 (some 9)).1.Capacity = max 1 (v4one.size_ * 2) ∧
     ((pushSeq 1).Capacity = 1 ∧ (pushSeq 2).Capacity = 2 ∧ (pushSeq 3).Capacity = 4)) :=
  ⟨⟨by decide, by decide⟩, claim_C4_growth_capacity v4one 0 9 (by decide) (by decide)⟩

/-- Claim C5: on every growth path (`Reserve`, `Resize`-growth and
`Emplace`-triggered reallocation) the pre-existing elements are transferred
by move construction exactly when `T`'s move constructor is non-throwing or
`T` is not copy-constructible, and by copy construction otherwise. -/
theorem claim_C5_growth_transfer_policy (tr : Traits) (v : Vector T) (c n d : Nat)
    (hc : v.Capacity < c) (hn : v.Capacity < n) :
    ((tr.is_nothrow_move_constructible || !tr.is_copy_constructible) = true →
      (∀ k ∈ Vector.ReserveTransfers tr v c, k = TransferKind.move) ∧
      (∀ k ∈ Vector.ResizeTransfers tr v n, k = TransferKind.move) ∧
      (∀ k ∈ Vector.ReallocateTransfers tr v d, k = TransferKind.move)) ∧
    ((tr.is_nothrow_move_constructible || !tr.is_copy_constructible) = false →
      (∀ k ∈ Vector.ReserveTransfers tr v c, k = TransferKind.copy) ∧
      (∀ k ∈ Vector.ResizeTransfers tr v n, k = TransferKind.copy) ∧
      (∀ k ∈ Vector.ReallocateTransfers tr v d, k = TransferKind.copy)) := by
  have hc2 : ¬ c ≤ v.data_.Capacity := Nat.not_le.mpr hc
  have hn2 : ¬ n ≤ v.data_.Capacity := Nat.not_le.mpr hn
  constructor <;> intro hcond <;> refine ⟨?_, ?_, ?_⟩ <;>
    simp [Vector.ReserveTransfers, Vector.ResizeTransfers, Vector.ReallocateTransfers,
      hcond, hc2, hn2, List.mem_replicate]

def v5one : Vector Nat := Vector.empty.PushBack 3

theorem claim_C5_growth_transfer_policy_witness :
    (v5one.Capacity < 2 ∧ v5one.Capacity < 3) ∧
    ((((Traits.mk true true).is_nothrow_move_constructible ||
        !(Traits.mk true true).is_copy_constructible) = true →
      (∀ k ∈ Vector.ReserveTransfers (Traits.mk true true) v5one 2, k = TransferKind.move) ∧
      (∀ k ∈ Vector.ResizeTransfers (Traits.mk true true) v5one 3, k = TransferKind.move) ∧
      (∀ k ∈ Vector.ReallocateTransfers (Traits.mk true true) v5one 0, k = TransferKind.move)) ∧
    (((Traits.mk true true).is_nothrow_move_constructible ||
        !(Traits.mk true true).is_copy_constructible) = false →
      (∀ k ∈ Vector.ReserveTransfers (Traits.mk true true) v5one 2, k = TransferKind.copy) ∧
      (∀ k ∈ Vector.ResizeTransfers (Traits.mk true true) v5one 3, k = TransferKind.copy) ∧
      (∀ k ∈ Vector.ReallocateTransfers (Traits.mk true true) v5one 0, k = TransferKind.copy))) :=
  ⟨⟨by decide, by decide⟩,
   claim_C5_growth_transfer_policy (Traits.mk true true) v5one 2 3 0 (by decide) (by decide)⟩

/-- Claim C6: copy-assignment makes the destination's size and elements
equal the source's; with enough capacity (`w.size_ ≤ v.Capacity`) it keeps
the destination's capacity and destroys the surplus tail slots, and with
too little capacity it reallocates to a capacity of at least the source's
size. -/
theorem claim_C6_copy_assign_frame (v w : Vector T) (hv : v.size_ ≤ v.Capacity) :
    (v.copyAssign w).size_ = w.size_ ∧
    (∀ i, i < w.size_ → (v.copyAssign w).read i = w.read i) ∧
    (w.size_ ≤ v.Capacity →
      (v.copyAssign w).Capacity = v.Capacity ∧
      (∀ i, w.size_ ≤ i → i < v.size_ → (v.copyAssign w).read i = none)) ∧
    (v.Capacity < w.size_ → w.size_ ≤ (v.copyAssign w).Capacity) := by
  by_cases hcw : v.Capacity < w.size_
  · obtain ⟨hs, hc, hr⟩ := copyCtor_spec w
    unfold Vector.copyAssign
    rw [if_pos hcw]
    refine ⟨hs, hr, ?_, ?_⟩
    · intro h
      omega
    · intro _
      rw [hc]
  · have hwv : w.size_ ≤ v.Capacity := Nat.not_lt.mp hcw
    have hbl : v.data_.buffer_.length = v.Capacity := rfl
    unfold Vector.copyAssign
    rw [if_neg hcw]
    by_cases hsh : w.size_ < v.size_
    · simp only [if_pos hsh]
      refine ⟨by trivial, ?_, ?_, ?_⟩
      · intro i hi
        show sl (destroyN (transferN _ _ _ _ _) _ _) i = _
        unfold destroyN
        rw [sl_fillN]
        · rw [if_neg (by omega), sl_transferN]
          · rw [if_pos (by omega)]
            unfold Vector.read
            congr 1
            omega
          · rw [hbl]
            omega
        · rw [length_transferN, hbl]
          omega
      · intro _
        constructor
        · show (destroyN (transferN _ _ _ _ _) _ _).length = _
          unfold destroyN
          rw [length_fillN, length_transferN, hbl]
        · intro i hi1 hi2
          show sl (destroyN (transferN _ _ _ _ _) _ _) i = _
          unfold destroyN
          rw [sl_fillN]
          · rw [if_pos (by omega)]
          · rw [length_transferN, hbl]
            omega
      · intro h
        omega
    · simp only [if_neg hsh]
      refine ⟨by trivial, ?_, ?_, ?_⟩
      · intro i hi
        show sl (transferN _ _ (transferN _ _ _ _ _) _ _) i = _
        rw [sl_transferN]
        · by_cases hiv : i < v.size_
          · rw [if_neg (by omega), sl_transferN]
            · rw [if_pos (by omega)]
              unfold Vector.read
              congr 1
              omega
            · rw [hbl]
              omega
          · rw [if_pos (by omega)]
            unfold Vector.read
            congr 1
            omega
        · rw [length_transferN, hbl]
          omega
      · intro _
        constructor
        · show (transferN _ _ (transferN _ _ _ _ _) _ _).length = _
          rw [length_transferN, length_transferN, hbl]
        · intro i hi1 hi2
          omega
      · intro h
        omega

def v6dest : Vector Nat := ((Vector.empty.PushBack 1).PushBack 2).PushBack 3

def w6src : Vector Nat := Vector.empty.PushBack 8

theorem claim_C6_copy_assign_frame_witness :
    (v6dest.size_ ≤ v6dest.Capacity) ∧
    ((v6dest.copyAssign w6src).size_ = w6src.size_ ∧
     (∀ i, i < w6src.size_ → (v6dest.copyAssign w6src).read i = w6src.read i) ∧
     (w6src.size_ ≤ v6dest.Capacity →
       (v6dest.copyAssign w6src).Capacity = v6dest.Capacity ∧
       (∀ i, w6src.size_ ≤ i → i < v6dest.size_ → (v6dest.copyAssign w6src).read i = none)) ∧
     (v6dest.Capacity < w6src.size_ → w6src.size_ ≤ (v6dest.copyAssign w6src).Capacity)) :=
  ⟨by decide, claim_C6_copy_assign_frame v6dest w6src (by decide)⟩

/-- Claim C7: `Resize(n)` always sets the size to `n`; shrinking destroys
exactly the tail `[n, size)` leaving the prefix and the capacity unchanged;
growing within capacity default-constructs the new tail in place; growing
beyond capacity reallocates to capacity exactly `n`, preserving the old
elements and default-constructing the new tail. -/
theorem claim_C7_resize (v : Vector T) [Inhabited T] (n : Nat) (hv : v.size_ ≤ v.Capacity) :
    (v.Resize n).size_ = n ∧
    (n < v.size_ →
      (v.Resize n).Capacity = v.Capacity ∧
      (∀ i, i < n → (v.Resize n).read i = v.read i) ∧
      (∀ i, n ≤ i → i < v.size_ → (v.Resize n).read i = none)) ∧
    (v.size_ ≤ n → n ≤ v.Capacity →
      (v.Resize n).Capacity = v.Capacity ∧
      (∀ i, i < v.size_ → (v.Resize n).read i = v.read i) ∧
      (∀ i, v.size_ ≤ i → i < n → (v.Resize n).read i = some default)) ∧
    (v.Capacity < n →
      (v.Resize n).Capacity = n ∧
      (∀ i, i < v.size_ → (v.Resize n).read i = v.read i) ∧
      (∀ i, v.size_ ≤ i → i < n → (v.Resize n).read i = some default)) := by
  have hbl : v.data_.buffer_.length = v.Capacity := rfl
  by_cases hn1 : n ≤ v.data_.Capacity
  · have hn1c : n ≤ v.Capacity := hn1
    unfold Vector.Resize
    rw [if_pos hn1]
    by_cases hn2 : n < v.size_
    · rw [if_pos hn2]
      refine ⟨rfl, ?_, ?_, ?_⟩
      · intro _
        refine ⟨?_, ?_, ?_⟩
        · show (destroyN _ _ _).length = _
          unfold destroyN
          rw [length_fillN, hbl]
        · intro i hi
          show sl (destroyN _ _ _) i = _
          unfold destroyN
          rw [sl_fillN]
          · rw [if_neg (by omega)]
            rfl
          · rw [hbl]
            omega
        · intro i hi1 hi2
          show sl (destroyN _ _ _) i = _
          unfold destroyN
          rw [sl_fillN]
          · rw [if_pos (by omega)]
          · rw [hbl]
            omega
      · intro h _
        omega
      · intro h
        omega
    · rw [if_neg hn2]
      refine ⟨rfl, ?_, ?_, ?_⟩
      · intro h
        omega
      · intro _ _
        refine ⟨?_, ?_, ?_⟩
        · show (valueConstructN _ _ _).length = _
          unfold valueConstructN
          rw [length_fillN, hbl]
        · intro i hi
          show sl (valueConstructN _ _ _) i = _
          unfold valueConstructN
          rw [sl_fillN]
          · rw [if_neg (by omega)]
            rfl
          · rw [hbl]
            omega
        · intro i hi1 hi2
          show sl (valueConstructN _ _ _) i = _
          unfold valueConstructN
          rw [sl_fillN]
          · rw [if_pos (by omega)]
          · rw [hbl]
            omega
      · intro h
        omega
  · have hn1c : v.Capacity < n := Nat.not_le.mp hn1
    unfold Vector.Resize
    rw [if_neg hn1]
    refine ⟨rfl, ?_, ?_, ?_⟩
    · intro h
      omega
    · intro _ h
      omega
    · intro _
      refine ⟨?_, ?_, ?_⟩
      · show (valueConstructN (transferN _ _ _ _ _) _ _).length = _
        unfold valueConstructN
        rw [length_fillN, length_transferN, List.length_replicate]
      · intro i hi
        show sl (valueConstructN (transferN _ _ _ _ _) _ _) i = _
        unfold valueConstructN
        rw [sl_fillN]
        · rw [if_neg (by omega), sl_transferN]
          · rw [if_pos (by omega)]
            unfold Vector.read
            congr 1
            omega
          · rw [List.length_replicate]
            omega
        · rw [length_transferN, List.length_replicate]
          omega
      · intro i hi1 hi2
        show sl (valueConstructN (transferN _ _ _ _ _) _ _) i = _
        unfold valueConstructN
        rw [sl_fillN]
        · rw [if_pos (by omega)]
        · rw [length_transferN, List.length_replicate]
          omega

def v7three : Vector Nat := ((Vector.empty.PushBack 1).PushBack 2).PushBack 3

theorem claim_C7_resize_witness :
    (v7three.size_ ≤ v7three.Capacity) ∧
    ((v7three.Resize 5).size_ = 5 ∧
     (5 < v7three.size_ →
       (v7three.Resize 5).Capacity = v7three.Capacity ∧
       (∀ i, i < 5 → (v7three.Resize 5).read i = v7three.read i) ∧
       (∀ i, 5 ≤ i → i < v7three.size_ → (v7three.Resize 5).read i = none)) ∧
     (v7three.size_ ≤ 5 → 5 ≤ v7three.Capacity →
       (v7three.Resize 5).Capacity = v7three.Capacity ∧
       (∀ i, i < v7three.size_ → (v7three.Resize 5).read i = v7three.read i) ∧
       (∀ i, v7three.size_ ≤ i → i < 5 → (v7three.Resize 5).read i = some default)) ∧
     (v7three.Capacity < 5 →
       (v7three.Resize 5).Capacity = 5 ∧
       (∀ i, i < v7three.size_ → (v7three.Resize 5).read i = v7three.read i) ∧
       (∀ i, v7three.size_ ≤ i → i < 5 → (v7three.Resize 5).read i = some default))) :=
  ⟨by decide, claim_C7_resize v7three 5 (by decide)⟩

/-- Claim C8: `Erase` at a valid index `i` shifts every later element one
slot left, leaves the elements before `i` and the capacity unchanged,
destroys the vacated last live slot, and decrements the size by one. -/
theorem claim_C8_erase (v : Vector T) (i : Nat) (hi : i < v.size_) (hv : v.size_ ≤ v.Capacity) :
    (v.Erase i).1.size_ = v.size_ - 1 ∧
    (v.Erase i).1.Capacity = v.Capacity ∧
    (∀ j, j < i → (v.Erase i).1.read j = v.read j) ∧
    (∀ j, i ≤ j → j + 1 < v.size_ → (v.Erase i).1.read j = v.read (j + 1)) ∧
    (v.Erase i).1.read (v.size_ - 1) = none := by
  have hbl : v.data_.buffer_.length = v.Capacity := rfl
  refine ⟨rfl, ?_, ?_, ?_, ?_⟩
  · show (List.set (moveN _ _ _) _ _).length = _
    rw [List.length_set, length_moveN, hbl]
  · intro j hj
    show sl (List.set (moveN _ _ _) _ _) j = _
    rw [sl_set, if_neg (by omega), sl_moveN]
    · rw [if_neg (by omega)]
      rfl
    · rw [hbl]
      omega
  · intro j hj1 hj2
    show sl (List.set (moveN _ _ _) _ _) j = _
    rw [sl_set, if_neg (by omega), sl_moveN]
    · rw [if_pos (by omega)]
      rfl
    · rw [hbl]
      omega
  · show sl (List.set (moveN _ _ _) _ _) (v.size_ - 1) = _
    rw [sl_set, if_pos ⟨rfl, by rw [length_moveN, hbl]; omega⟩]

def v8three : Vector Nat := ((Vector.empty.PushBack 1).PushBack 2).PushBack 3

theorem claim_C8_erase_witness :
    (1 < v8three.size_ ∧ v8three.size_ ≤ v8three.Capacity) ∧
    ((v8three.Erase 1).1.size_ = v8three.size_ - 1 ∧
     (v8three.Erase 1).1.Capacity = v8three.Capacity ∧
     (∀ j, j < 1 → (v8three.Erase 1).1.read j = v8three.read j) ∧
     (∀ j, 1 ≤ j → j + 1 < v8three.size_ → (v8three.Erase 1).1.read j = v8three.read (j + 1)) ∧
     (v8three.Erase 1).1.read (v8three.size_ - 1) = none) :=
  ⟨⟨by decide, by decide⟩, claim_C8_erase v8three 1 (by decide) (by decide)⟩

def v9one : Vector Nat := Vector.empty.PushBack 1

/-- Claim C9's final clause fails on the code for a non-empty vector: for
the one-element `v9one` (capacity 1), `Reserve(2)` makes the capacity
exactly 2, but the second of 2 ≤ n = 2 subsequent `PushBack` calls finds
size equal to capacity and reallocates, so the capacity after the pushes is
4, not 2. -/
theorem claim_C9_reserve_counterexample :
    v9one.Capacity = 1 ∧ (v9one.Reserve 2).Capacity = 2 ∧
    (((v9one.Reserve 2).PushBack 8).PushBack 9).Capacity = 4 ∧
    ¬ (((v9one.Reserve 2).PushBack 8).PushBack 9).Capacity = 2 := by
  decide

/-- Claim C9 as amended: `Reserve(n)` with `n ≤ capacity` changes nothing;
with `n > capacity` it makes the capacity exactly `n` preserving size and
elements, so that `Reserve(n)` followed by up to `n - size` `PushBack`
calls triggers no further reallocation (the capacity stays `n` across the
pushes). -/
theorem claim_C9_reserve_amended (v : Vector T) (n : Nat) (hv : v.size_ ≤ v.Capacity) :
    (n ≤ v.Capacity → v.Reserve n = v) ∧
    (v.Capacity < n →
      (v.Reserve n).Capacity = n ∧
      (v.Reserve n).size_ = v.size_ ∧
      (∀ i, i < v.size_ → (v.Reserve n).read i = v.read i) ∧
      (∀ xs : List T, v.size_ + xs.length ≤ n →
        (xs.foldl Vector.PushBack (v.Reserve n)).Capacity = n)) := by
  constructor
  · intro h
    have h2 : n ≤ v.data_.Capacity := h
    unfold Vector.Reserve
    rw [if_pos h2]
  · intro hlt
    have h2 : ¬ n ≤ v.data_.Capacity := Nat.not_le.mpr hlt
    have hbl : v.data_.buffer_.length = v.Capacity := rfl
    unfold Vector.Reserve
    rw [if_neg h2]
    refine ⟨?_, rfl, ?_, ?_⟩
    · show (transferN _ _ _ _ _).length = _
      rw [length_transferN, List.length_replicate]
    · intro i hi
      show sl (transferN _ _ _ _ _) i = _
      rw [sl_transferN]
      · rw [if_pos (by omega)]
        unfold Vector.read
        congr 1
        omega
      · rw [List.length_replicate]
        omega
    · intro xs hxs
      have hw := (foldl_PushBack_spec xs
        ⟨⟨transferN v.data_.buffer_ 0 (List.replicate n none) 0 v.size_⟩, v.size_⟩
        (by
          show v.size_ + xs.length ≤ (transferN _ _ _ _ _).length
          rw [length_transferN, List.length_replicate]
          exact hxs)).1
      rw [hw]
      show (transferN _ _ _ _ _).length = _
      rw [length_transferN, List.length_replicate]

def v9wit : Vector Nat := Vector.empty.PushBack 4

theorem claim_C9_reserve_amended_witness :
    (v9wit.size_ ≤ v9wit.Capacity) ∧
    ((3 ≤ v9wit.Capacity → v9wit.Reserve 3 = v9wit) ∧
     (v9wit.Capacity < 3 →
       (v9wit.Reserve 3).Capacity = 3 ∧
       (v9wit.Reserve 3).size_ = v9wit.size_ ∧
       (∀ i, i < v9wit.size_ → (v9wit.Reserve 3).read i = v9wit.read i) ∧
       (∀ xs : List Nat, v9wit.size_ + xs.length ≤ 3 →
         (xs.foldl Vector.PushBack (v9wit.Reserve 3)).Capacity = 3))) :=
  ⟨by decide, claim_C9_reserve_amended v9wit 3 (by decide)⟩

/-- Claim C10: `Emplace` at a valid distance `i` returns an iterator to the
newly inserted element — index `i`, whose slot afterwards holds the
constructed value — and `Erase` at a valid index `i` returns index `i`,
where the element that followed the erased one now lives. -/
theorem claim_C10_emplace_erase_iterators (v : Vector T) (i : Nat) (x : T)
    (hi : i ≤ v.size_) (hv : v.size_ ≤ v.Capacity) :
    ((v.Emplace i (some x)).2 = some i ∧ (v.Emplace i (some x)).1.read i = some x) ∧
    (i < v.size_ →
      (v.Erase i).2 = i ∧
      (i + 1 < v.size_ → (v.Erase i).1.read i = v.read (i + 1))) := by
  obtain ⟨h2, _, _, _, hat, _⟩ := Emplace_some_spec v i x hi hv
  refine ⟨⟨h2, hat⟩, ?_⟩
  intro hilt
  refine ⟨rfl, ?_⟩
  intro hlt
  have hbl : v.data_.buffer_.length = v.Capacity := rfl
  show sl (List.set (moveN _ _ _) _ _) i = _
  rw [sl_set, if_neg (by omega), sl_moveN]
  · rw [if_pos (by omega)]
    rfl
  · rw [hbl]
    omega

def v10three : Vector Nat := ((Vector.empty.PushBack 1).PushBack 2).PushBack 3

theorem claim_C10_emplace_erase_iterators_witness :
    (1 ≤ v10three.size_ ∧ v10three.size_ ≤ v10three.Capacity) ∧
    (((v10three.Emplace 1 (some 99)).2 = some 1 ∧
      (v10three.Emplace 1 (some 99)).1.read 1 = some 99) ∧
     (1 < v10three.size_ →
       (v10three.Erase 1).2 = 1 ∧
       (1 + 1 < v10three.size_ → (v10three.Erase 1).1.read 1 = v10three.read (1 + 1)))) :=
  ⟨⟨by decide, by decide⟩,
   claim_C10_emplace_erase_iterators v10three 1 99 (by decide) (by decide)⟩

end AdvancedVector
